import Mathlib

/-!
Verification of the `RecipientsDisplay` fitting algorithm.

The definitions below are a shallow embedding of the function
`formatRecipientsForDisplay` from `src/vue/src/components/RecipientsDisplay.vue`
(the canonical variant, lines 183-219), together with its documented fallback
text-width formula.  The text measurer is abstracted as a function
`String → Int` (the component obtains it from a canvas / DOM probe, which is
outside the algorithm's logic); the container width is an `Int` so that
zero and negative widths can be discussed.  The loop over
`props.recipients.entries()` becomes structural recursion over the list with
an explicit running index.
-/

namespace RecipientsDisplay

/-- Source: `const badgeNumberValue = isFirstRecipient ? numberOfHiddenRecipients - 1
: numberOfHiddenRecipients` where `numberOfHiddenRecipients = recipients.length - index`
(RecipientsDisplay.vue lines 192-194). -/
def badgeNumberValue (N index : Nat) : Nat :=
  if index = 0 then N - index - 1 else N - index

/-- Source: `let widthOfBadge = calculateWidthOfTextForElement(`+${numberOfHiddenRecipients
.toString()}`, ...) + badgeMargin + badgeLeftPadding + badgeRightPadding` with the
constants 5, 2, 2 (RecipientsDisplay.vue lines 195-198).  Note the measured label uses
`numberOfHiddenRecipients = N - index`, not `badgeNumberValue`. -/
def widthOfBadge (μ : String → Int) (N index : Nat) : Int :=
  μ ("+" ++ toString (N - index)) + 5 + 2 + 2

/-- The badge-width term of the fit test: `(badgeNumberValue > 0 ? widthOfBadge : 0)`
(RecipientsDisplay.vue line 206). -/
def badgeReserved (μ : String → Int) (N index : Nat) : Int :=
  if 0 < badgeNumberValue N index then widthOfBadge μ N index else 0

/-- Source: `const recipientText = isLastRecipient ? recipient : `${recipient}, ``
(RecipientsDisplay.vue lines 200-202). -/
def recipientText (N index : Nat) (recipient : String) : String :=
  if index = N - 1 then recipient else recipient ++ (", ")

/-- The `for (const [index, recipient] of props.recipients.entries())` loop of
`formatRecipientsForDisplay` (RecipientsDisplay.vue lines 191-216), as structural
recursion.  `N` is `props.recipients.length`, `E` the precomputed width of `", ..."`,
`avail` the running `totalAvailableContainerWidth` and `acc` the running
`recipientsString`.  Falling off the end of the list returns the badge value `0`
set before the loop. -/
def fitLoop (μ : String → Int) (N : Nat) (E : Int) :
    Nat → List String → Int → String → String × Nat
  | _, [], _, acc => (acc, 0)
  | index, recipient :: rest, avail, acc =>
    if avail > μ (recipientText N index recipient) + (if index = N - 1 then 0 else E)
        + badgeReserved μ N index then
      fitLoop μ N E (index + 1) rest (avail - μ (recipientText N index recipient))
        (acc ++ recipientText N index recipient)
    else
      (acc ++ (if index = 0 then recipient else ("...")), badgeNumberValue N index)

/-- Source: `formatRecipientsForDisplay` (RecipientsDisplay.vue lines 183-219).
Returns the pair (`displayedRecipients.value`, `badgeNumber.value`) written by one
invocation, as a function of the measurer, the container width and the recipients. -/
def formatRecipientsForDisplay (μ : String → Int) (containerWidth : Int)
    (recipients : List String) : String × Nat :=
  fitLoop μ recipients.length (μ (", ...")) 0 recipients containerWidth ("")

/-- The documented deterministic fallback width formula of
`calculateWidthOfTextForElement`: `text.length * 8 + 20`
(RecipientsDisplay.vue line 170). -/
def fallbackMeasurer (text : String) : Int :=
  ((text.length * 8 + 20 : Nat) : Int)

/-- The component's reactive state touched by one fitting pass: the inputs
(`props.recipients`, the container's current width) and the two output refs
(`displayedRecipients`, `badgeNumber`). -/
structure ComponentState where
  recipients : List String
  containerWidth : Int
  displayedRecipients : String
  badgeNumber : Nat
  deriving DecidableEq

/-- One invocation of `formatRecipientsForDisplay` as a state transformer:
it reads the inputs and overwrites exactly the two output refs
(RecipientsDisplay.vue lines 213, 218). -/
def runFormat (μ : String → Int) (s : ComponentState) : ComponentState :=
  { s with
    displayedRecipients := (formatRecipientsForDisplay μ s.containerWidth s.recipients).1
    badgeNumber := (formatRecipientsForDisplay μ s.containerWidth s.recipients).2 }

/-- Modelled from the spec: the reference algorithm of section 4.2, verbatim.  It
differs from the source only in the badge label measured at the first item: the
spec measures `"+" ++ candidateHiddenCount` (the hidden count that failure at the
current item would produce), the source measures `"+" ++ numberOfHiddenRecipients`.
The three badge paddings are taken as the source's constants 5, 2, 2. -/
def specFitLoop (μ : String → Int) (N : Nat) (E : Int) :
    Nat → List String → Int → String → String × Nat
  | _, [], _, output => (output, 0)
  | i, r :: rest, remainingWidth, output =>
    if remainingWidth > μ (if i = N - 1 then r else r ++ (", "))
        + (if i = N - 1 then 0 else E)
        + (if 0 < (if i = 0 then N - i - 1 else N - i) then
            μ ("+" ++ toString (if i = 0 then N - i - 1 else N - i)) + 5 + 2 + 2
          else 0) then
      specFitLoop μ N E (i + 1) rest (remainingWidth - μ (if i = N - 1 then r else r ++ (", ")))
        (output ++ (if i = N - 1 then r else r ++ (", ")))
    else
      (output ++ (if i = 0 then r else ("...")), if i = 0 then N - i - 1 else N - i)

/-- Modelled from the spec: `RecipientFitter` of section 4.2 built on `specFitLoop`. -/
def specFitter (μ : String → Int) (containerWidth : Int) (recipients : List String) :
    String × Nat :=
  specFitLoop μ recipients.length (μ (", ...")) 0 recipients containerWidth ("")

/-- The spec's reference algorithm amended at one point: the badge label measured at
step `i` is `"+" ++ (N - i)` (the count of items from the current one on), exactly as
the source's `widthOfBadge` does. -/
def amendedSpecFitLoop (μ : String → Int) (N : Nat) (E : Int) :
    Nat → List String → Int → String → String × Nat
  | _, [], _, output => (output, 0)
  | i, r :: rest, remainingWidth, output =>
    if remainingWidth > μ (if i = N - 1 then r else r ++ (", "))
        + (if i = N - 1 then 0 else E)
        + (if 0 < (if i = 0 then N - i - 1 else N - i) then
            μ ("+" ++ toString (N - i)) + 5 + 2 + 2
          else 0) then
      amendedSpecFitLoop μ N E (i + 1) rest (remainingWidth - μ (if i = N - 1 then r else r ++ (", ")))
        (output ++ (if i = N - 1 then r else r ++ (", ")))
    else
      (output ++ (if i = 0 then r else ("...")), if i = 0 then N - i - 1 else N - i)

/-- The amended reference fitter. -/
def amendedSpecFitter (μ : String → Int) (containerWidth : Int) (recipients : List String) :
    String × Nat :=
  amendedSpecFitLoop μ recipients.length (μ (", ...")) 0 recipients containerWidth ("")

/-- The comma-space join of a list of identifiers (`a, b, c`). -/
def commaJoin : List String → String
  | [] => ("")
  | [r] => r
  | r :: rest => r ++ (", ") ++ commaJoin rest

/-- The first identifier of a list, `""` for the empty list. -/
def firstRecipient : List String → String
  | [] => ("")
  | r :: _ => r

/-- The text the loop would append for the suffix `rest` starting at `index` if every
item were accepted. -/
def joinFrom (N : Nat) : Nat → List String → String
  | _, [] => ("")
  | index, r :: rest => recipientText N index r ++ joinFrom N (index + 1) rest

/-- The text appended for a run of accepted non-last items: each with its `", "`. -/
def chunksText : List String → String
  | [] => ("")
  | r :: rest => (r ++ (", ")) ++ chunksText rest

/-- Sum of the measured widths the loop charges for the suffix `rest` starting at
`index`: each non-last item is measured together with its `", "` separator. -/
def sumWidthsFrom (μ : String → Int) (N : Nat) : Nat → List String → Int
  | _, [] => 0
  | index, r :: rest => μ (recipientText N index r) + sumWidthsFrom μ N (index + 1) rest

/-- An upper bound for every badge reservation the loop can make on a list of `N`
items: the maximum of `μ ("+k") + 5 + 2 + 2` over `1 ≤ k ≤ N`. -/
def maxBadgeReserve (μ : String → Int) : Nat → Int
  | 0 => 0
  | n + 1 => max (μ ("+" ++ toString (n + 1)) + 5 + 2 + 2) (maxBadgeReserve μ n)

section StringHelpers

theorem str_empty_append (s : String) : ("") ++ s = s := by
  cases s with
  | mk d => rfl

theorem str_append_empty (s : String) : s ++ ("") = s := by
  cases s with
  | mk d => exact congrArg String.mk (List.append_nil d)

theorem str_length_pos (s : String) (h : s ≠ ("")) : 0 < s.length := by
  cases s with
  | mk d =>
    cases d with
    | nil => exact absurd rfl h
    | cons c cs => simp [String.length]

theorem str_ne_empty_of_length_pos (s : String) (h : 0 < s.length) : s ≠ ("") := by
  intro hs
  rw [hs] at h
  exact absurd h (by decide)

end StringHelpers

theorem fitLoop_nil (μ : String → Int) (N : Nat) (E : Int) (index : Nat) (avail : Int)
    (acc : String) : fitLoop μ N E index [] avail acc = (acc, 0) := rfl

theorem fitLoop_cons (μ : String → Int) (N : Nat) (E : Int) (index : Nat) (r : String)
    (rest : List String) (avail : Int) (acc : String) :
    fitLoop μ N E index (r :: rest) avail acc =
      if avail > μ (recipientText N index r) + (if index = N - 1 then 0 else E)
          + badgeReserved μ N index then
        fitLoop μ N E (index + 1) rest (avail - μ (recipientText N index r))
          (acc ++ recipientText N index r)
      else
        (acc ++ (if index = 0 then r else ("...")), badgeNumberValue N index) := rfl

theorem fallback_nonneg : ∀ s, 0 ≤ fallbackMeasurer s := fun _ => Int.natCast_nonneg _

theorem fitLoop_eq_amendedSpecFitLoop (μ : String → Int) (N : Nat) (E : Int)
    (rest : List String) : ∀ (index : Nat) (avail : Int) (acc : String),
    fitLoop μ N E index rest avail acc = amendedSpecFitLoop μ N E index rest avail acc := by
  induction rest with
  | nil => intro index avail acc; rfl
  | cons r rest ih =>
    intro index avail acc
    simp only [fitLoop, amendedSpecFitLoop, recipientText, badgeReserved, widthOfBadge,
      badgeNumberValue]
    split_ifs <;> first | exact ih _ _ _ | rfl

/-- Structure of every possible outcome of the loop: either all of `rest` is
accepted (and the hidden count stays 0), or the first failure happens at absolute
index `index + j ≥ 1` (text is the accepted chunks followed by `"..."`), or the very
first item of the whole list fails (text is that item itself, count excludes it). -/
theorem fitLoop_shape (μ : String → Int) (N : Nat) (E : Int) (rest : List String) :
    ∀ (index : Nat) (avail : Int) (acc : String), index + rest.length = N →
      ∃ j, j ≤ rest.length ∧
        ((j = rest.length ∧
            fitLoop μ N E index rest avail acc = (acc ++ joinFrom N index rest, 0)) ∨
         (j < rest.length ∧ 1 ≤ index + j ∧
            fitLoop μ N E index rest avail acc =
              ((acc ++ chunksText (rest.take j)) ++ ("..."), N - (index + j))) ∨
         (j = 0 ∧ index = 0 ∧ 0 < rest.length ∧
            fitLoop μ N E index rest avail acc = (acc ++ firstRecipient rest, N - 1))) := by
  induction rest with
  | nil =>
    intro index avail acc _
    refine ⟨0, Nat.le_refl 0, Or.inl ⟨rfl, ?_⟩⟩
    simp only [fitLoop, joinFrom, str_append_empty]
  | cons r rest ih =>
    intro index avail acc hN
    rw [fitLoop_cons]
    by_cases hfit : avail > μ (recipientText N index r) + (if index = N - 1 then 0 else E)
        + badgeReserved μ N index
    · rw [if_pos hfit]
      have hN' : (index + 1) + rest.length = N := by
        simp only [List.length_cons] at hN
        omega
      obtain ⟨j, hj, hcase⟩ := ih (index + 1) (avail - μ (recipientText N index r))
        (acc ++ recipientText N index r) hN'
      rcases hcase with ⟨hjlen, heq⟩ | ⟨hjlt, hpos, heq⟩ | ⟨hj0, hidx, hlen, heq⟩
      · refine ⟨j + 1, by simp only [List.length_cons]; omega,
          Or.inl ⟨by simp only [List.length_cons]; omega, ?_⟩⟩
        rw [heq, joinFrom, String.append_assoc]
      · have hlast : index ≠ N - 1 := by
          simp only [List.length_cons] at hN
          omega
        refine ⟨j + 1, by simp only [List.length_cons]; omega,
          Or.inr (Or.inl ⟨by simp only [List.length_cons]; omega, by omega, ?_⟩)⟩
        have harith : index + 1 + j = index + (j + 1) := by omega
        rw [heq, harith, List.take_succ_cons, chunksText, recipientText, if_neg hlast]
        simp [String.append_assoc]
      · exact absurd hidx (Nat.succ_ne_zero index)
    · rw [if_neg hfit]
      by_cases hidx : index = 0
      · refine ⟨0, Nat.zero_le _, Or.inr (Or.inr ⟨rfl, hidx, by simp, ?_⟩)⟩
        subst hidx
        simp [badgeNumberValue, firstRecipient]
      · refine ⟨0, Nat.zero_le _, Or.inr (Or.inl ⟨by simp, by omega, ?_⟩)⟩
        simp [chunksText, badgeNumberValue, hidx, str_append_empty]

theorem joinFrom_eq_commaJoin (N : Nat) :
    ∀ (rest : List String) (index : Nat), index + rest.length = N →
      joinFrom N index rest = commaJoin rest := by
  intro rest
  induction rest with
  | nil => intro index _; rfl
  | cons r rest ih =>
    intro index hN
    cases rest with
    | nil =>
      have hlast : index = N - 1 := by simp at hN; omega
      simp [joinFrom, recipientText, hlast, commaJoin, str_append_empty]
    | cons r' rest' =>
      have hlast : index ≠ N - 1 := by simp at hN; omega
      have ih' := ih (index + 1) (by simp at hN ⊢; omega)
      rw [joinFrom, ih', recipientText, if_neg hlast]
      rfl

theorem chunksText_eq_commaJoin (l : List String) (h : l ≠ []) :
    chunksText l = commaJoin l ++ (", ") := by
  induction l with
  | nil => exact absurd rfl h
  | cons r rest ih =>
    cases rest with
    | nil => simp [chunksText, commaJoin, str_append_empty]
    | cons r' rest' =>
      rw [chunksText, ih (by simp)]
      simp [commaJoin, String.append_assoc]

theorem chunksTake_eq (rs : List String) (j : Nat) (h1 : 1 ≤ j) (h2 : j < rs.length) :
    chunksText (rs.take j) ++ ("...") = commaJoin (rs.take j) ++ (", ...") := by
  have htake : rs.take j ≠ [] := by
    rw [Ne, List.take_eq_nil_iff]
    rintro (h | h)
    · omega
    · subst h; simp at h2
  rw [chunksText_eq_commaJoin _ htake, String.append_assoc]
  have hlit : ((", ") : String) ++ ("...") = (", ...") := by decide
  rw [hlit]

theorem firstRecipient_take_one (rs : List String) (h : 0 < rs.length) :
    firstRecipient rs = commaJoin (rs.take 1) := by
  cases rs with
  | nil => simp at h
  | cons a l => simp [firstRecipient, commaJoin]

/-- C4: the claimed equivalence is false: for a single recipient `"a"` that fits
(fallback measurer, width 100), the result is `("a", 0)`, whose display text consists
solely of the first identifier, yet the hidden count is not positive. -/
theorem c4_counterexample :
    ¬ (0 < (formatRecipientsForDisplay fallbackMeasurer 100 ["a"]).2 ↔
       ((∃ p, (formatRecipientsForDisplay fallbackMeasurer 100 ["a"]).1 = p ++ ("...")) ∨
        (formatRecipientsForDisplay fallbackMeasurer 100 ["a"]).1 =
          firstRecipient ["a"])) := by
  intro hiff
  have h0 := hiff.mpr (Or.inr (by decide))
  exact absurd h0 (by decide)

/-- C4 (amended): only the forward direction holds: whenever `hiddenCount > 0`, the
display text either ends with `"..."` or is exactly the first identifier (the
converse fails, e.g. for a single recipient that fits). -/
theorem c4_amended (μ : String → Int) (w : Int) (rs : List String)
    (h : 0 < (formatRecipientsForDisplay μ w rs).2) :
    (∃ p, (formatRecipientsForDisplay μ w rs).1 = p ++ ("...")) ∨
    (formatRecipientsForDisplay μ w rs).1 = firstRecipient rs := by
  obtain ⟨j, hj, hcase⟩ :=
    fitLoop_shape μ rs.length (μ (", ...")) rs 0 w ("") (Nat.zero_add _)
  unfold formatRecipientsForDisplay at h ⊢
  rcases hcase with ⟨_, heq⟩ | ⟨_, _, heq⟩ | ⟨_, _, _, heq⟩
  · rw [heq] at h
    exact absurd h (by simp)
  · rw [heq]
    exact Or.inl ⟨("") ++ chunksText (rs.take j), rfl⟩
  · rw [heq]
    exact Or.inr (str_empty_append _)

theorem c4_witness :
    0 < (formatRecipientsForDisplay fallbackMeasurer 0 ["a", "b"]).2 ∧
    ((∃ p, (formatRecipientsForDisplay fallbackMeasurer 0 ["a", "b"]).1 = p ++ ("...")) ∨
     (formatRecipientsForDisplay fallbackMeasurer 0 ["a", "b"]).1 =
       firstRecipient ["a", "b"]) :=
  ⟨by decide, c4_amended fallbackMeasurer 0 ["a", "b"] (by decide)⟩

/-- C5: the claim fails for a non-empty list whose first entry is the empty string:
`[""]` at width 100 yields display text `""`. -/
theorem c5_counterexample :
    (formatRecipientsForDisplay fallbackMeasurer 100 [("")]).1 = ("") ∧
    ([("")] : List String) ≠ ([] : List String) := by decide

/-- C5 (amended): for every recipient list whose first identifier is a non-empty
string, and every container width (including zero and negative) and measurer, the
display text is never the empty string: the first identifier is appended in full
even when it does not fit. -/
theorem c5_amended (μ : String → Int) (w : Int) (r : String) (rest : List String)
    (hr : r ≠ ("")) :
    (formatRecipientsForDisplay μ w (r :: rest)).1 ≠ ("") := by
  obtain ⟨j, hj, hcase⟩ :=
    fitLoop_shape μ (r :: rest).length (μ (", ...")) (r :: rest) 0 w ("") (Nat.zero_add _)
  unfold formatRecipientsForDisplay
  have hrlen : 0 < r.length := str_length_pos r hr
  rcases hcase with ⟨_, heq⟩ | ⟨_, _, heq⟩ | ⟨_, _, _, heq⟩
  · rw [heq]
    apply str_ne_empty_of_length_pos
    rw [str_empty_append, joinFrom, String.length_append]
    unfold recipientText
    split_ifs
    · omega
    · rw [String.length_append]
      omega
  · rw [heq]
    apply str_ne_empty_of_length_pos
    rw [String.length_append]
    have h3 : (0 : Nat) < ("...").length := by decide
    omega
  · rw [heq, str_empty_append]
    exact hr

theorem c5_witness :
    (("a" : String) ≠ ("")) ∧
    (formatRecipientsForDisplay fallbackMeasurer 0 ["a"]).1 ≠ ("") :=
  ⟨by decide, c5_amended fallbackMeasurer 0 ("a") [] (by decide)⟩

/-- C7: the claimed three shapes do not cover the output: with the fallback
measurer, recipients `["a", "bbbbbbbbbb"]` and width 150, the display text is
`"a, ..."`, which is not a comma-space join of a prefix, not such a join followed
directly by `"..."`, and not the first identifier alone. -/
theorem c7_counterexample :
    ¬ ∃ k, k ≤ 2 ∧
      ((formatRecipientsForDisplay fallbackMeasurer 150 ["a", "bbbbbbbbbb"]).1 =
          commaJoin (List.take k ["a", "bbbbbbbbbb"]) ∨
       (formatRecipientsForDisplay fallbackMeasurer 150 ["a", "bbbbbbbbbb"]).1 =
          commaJoin (List.take k ["a", "bbbbbbbbbb"]) ++ ("...") ∨
       (formatRecipientsForDisplay fallbackMeasurer 150 ["a", "bbbbbbbbbb"]).1 =
          firstRecipient ["a", "bbbbbbbbbb"]) := by
  rintro ⟨k, hk, hdisj⟩
  have hall : ∀ m, m < 3 →
      ¬ ((formatRecipientsForDisplay fallbackMeasurer 150 ["a", "bbbbbbbbbb"]).1 =
          commaJoin (List.take m ["a", "bbbbbbbbbb"]) ∨
         (formatRecipientsForDisplay fallbackMeasurer 150 ["a", "bbbbbbbbbb"]).1 =
          commaJoin (List.take m ["a", "bbbbbbbbbb"]) ++ ("...") ∨
         (formatRecipientsForDisplay fallbackMeasurer 150 ["a", "bbbbbbbbbb"]).1 =
          firstRecipient ["a", "bbbbbbbbbb"]) := by decide
  exact hall k (by omega) hdisj

/-- C7 (amended): the display text is always either the comma-space join of a prefix
of the recipient list (the lone-first-identifier case being the join of the prefix of
length one) or such a join followed by the comma-space-ellipsis marker `", ..."`; in
particular every identifier appearing in it is byte-identical to its source entry. -/
theorem c7_amended (μ : String → Int) (w : Int) (rs : List String) :
    ∃ k, k ≤ rs.length ∧
      ((formatRecipientsForDisplay μ w rs).1 = commaJoin (rs.take k) ∨
       (formatRecipientsForDisplay μ w rs).1 = commaJoin (rs.take k) ++ (", ...")) := by
  obtain ⟨j, hj, hcase⟩ :=
    fitLoop_shape μ rs.length (μ (", ...")) rs 0 w ("") (Nat.zero_add _)
  unfold formatRecipientsForDisplay
  rcases hcase with ⟨hjlen, heq⟩ | ⟨hjlt, hpos, heq⟩ | ⟨hj0, _, hlen, heq⟩
  · refine ⟨rs.length, Nat.le_refl _, Or.inl ?_⟩
    rw [heq, str_empty_append, List.take_length,
      joinFrom_eq_commaJoin rs.length rs 0 (Nat.zero_add _)]
  · refine ⟨j, hj, Or.inr ?_⟩
    rw [heq, str_empty_append, chunksTake_eq rs j (by omega) hjlt]
  · refine ⟨1, by omega, Or.inl ?_⟩
    rw [heq, str_empty_append, firstRecipient_take_one rs hlen]

/-- C10: the number of recipients rendered verbatim plus the hidden count equals the
list length: there is a rendered-prefix size `k` (at least one for a non-empty list)
with `k + hiddenCount = N`, the display text being that prefix's join, possibly
followed by the `", ..."` marker; consequently `hiddenCount ≤ N - 1` for non-empty
lists. -/
theorem c10_rendered_plus_hidden (μ : String → Int) (w : Int) (rs : List String) :
    ∃ k, k ≤ rs.length ∧ min 1 rs.length ≤ k ∧
      k + (formatRecipientsForDisplay μ w rs).2 = rs.length ∧
      (formatRecipientsForDisplay μ w rs).2 ≤ rs.length - min 1 rs.length ∧
      ((formatRecipientsForDisplay μ w rs).1 = commaJoin (rs.take k) ∨
       (formatRecipientsForDisplay μ w rs).1 = commaJoin (rs.take k) ++ (", ...")) := by
  obtain ⟨j, hj, hcase⟩ :=
    fitLoop_shape μ rs.length (μ (", ...")) rs 0 w ("") (Nat.zero_add _)
  unfold formatRecipientsForDisplay
  rcases hcase with ⟨hjlen, heq⟩ | ⟨hjlt, hpos, heq⟩ | ⟨hj0, _, hlen, heq⟩
  · rw [heq]
    refine ⟨rs.length, Nat.le_refl _, by omega, by simp, by simp, Or.inl ?_⟩
    rw [str_empty_append, List.take_length,
      joinFrom_eq_commaJoin rs.length rs 0 (Nat.zero_add _)]
  · rw [heq]
    refine ⟨j, hj, by omega, ?_, ?_, Or.inr ?_⟩
    · show j + (rs.length - (0 + j)) = rs.length
      omega
    · show rs.length - (0 + j) ≤ rs.length - min 1 rs.length
      omega
    · rw [str_empty_append, chunksTake_eq rs j (by omega) hjlt]
  · rw [heq]
    refine ⟨1, by omega, by omega, ?_, ?_, Or.inl ?_⟩
    · show 1 + (rs.length - 1) = rs.length
      omega
    · show rs.length - 1 ≤ rs.length - min 1 rs.length
      omega
    · rw [str_empty_append, firstRecipient_take_one rs hlen]

theorem sumWidthsFrom_nonneg (μ : String → Int) (hμ : ∀ s, 0 ≤ μ s) (N : Nat) :
    ∀ (rest : List String) (index : Nat), 0 ≤ sumWidthsFrom μ N index rest := by
  intro rest
  induction rest with
  | nil => intro index; exact le_refl 0
  | cons r rest ih =>
    intro index
    have h1 := hμ (recipientText N index r)
    have h2 := ih (index + 1)
    simp only [sumWidthsFrom]
    omega

theorem maxBadgeReserve_nonneg (μ : String → Int) : ∀ N, 0 ≤ maxBadgeReserve μ N := by
  intro N
  induction N with
  | zero => exact le_refl 0
  | succ n ih =>
    simp only [maxBadgeReserve]
    exact le_trans ih (le_max_right _ _)

theorem le_maxBadgeReserve (μ : String → Int) :
    ∀ (N k : Nat), 1 ≤ k → k ≤ N →
      μ ("+" ++ toString k) + 5 + 2 + 2 ≤ maxBadgeReserve μ N := by
  intro N
  induction N with
  | zero => intro k h1 h2; omega
  | succ n ih =>
    intro k h1 h2
    rcases Nat.lt_or_ge k (n + 1) with hlt | hge
    · exact le_trans (ih k h1 (by omega)) (le_max_right _ _)
    · have hk : k = n + 1 := by omega
      subst hk
      exact le_max_left _ _

theorem badgeReserved_le_max (μ : String → Int) (N index : Nat) :
    badgeReserved μ N index ≤ maxBadgeReserve μ N := by
  unfold badgeReserved widthOfBadge
  split_ifs with h
  · apply le_maxBadgeReserve
    · unfold badgeNumberValue at h
      split_ifs at h <;> omega
    · omega
  · exact maxBadgeReserve_nonneg μ N

/-- If the available width strictly dominates the total charged width plus the
largest possible reservations, every item is accepted. -/
theorem fitLoop_fullfit (μ : String → Int) (hμ : ∀ s, 0 ≤ μ s) (N : Nat) (E : Int)
    (hE : 0 ≤ E) :
    ∀ (rest : List String) (index : Nat) (avail : Int) (acc : String),
      sumWidthsFrom μ N index rest + E + maxBadgeReserve μ N < avail →
      fitLoop μ N E index rest avail acc = (acc ++ joinFrom N index rest, 0) := by
  intro rest
  induction rest with
  | nil =>
    intro index avail acc _
    simp only [fitLoop, joinFrom, str_append_empty]
  | cons r rest ih =>
    intro index avail acc hw
    have hsum := sumWidthsFrom_nonneg μ hμ N rest (index + 1)
    have hbr := badgeReserved_le_max μ N index
    have hμr := hμ (recipientText N index r)
    simp only [sumWidthsFrom] at hw
    have he : (if index = N - 1 then (0 : Int) else E) ≤ E := by
      split_ifs <;> omega
    have hcond : avail > μ (recipientText N index r) + (if index = N - 1 then 0 else E)
        + badgeReserved μ N index := by
      omega
    rw [fitLoop_cons, if_pos hcond,
      ih (index + 1) (avail - μ (recipientText N index r)) (acc ++ recipientText N index r)
        (by omega),
      joinFrom, String.append_assoc]

/-- C3: the claimed premise is too weak: with the fallback measurer and recipients
`["a", "b"]`, the width sum (44 for `"a, "` plus 28 for `"b"`) is 72 ≤ 72, yet at
width 72 the code hides one recipient (`("a", 1)`) instead of showing the full join,
because the fit test also reserves ellipsis and badge widths and is strict. -/
theorem c3_counterexample :
    sumWidthsFrom fallbackMeasurer 2 0 ["a", "b"] ≤ 72 ∧
    formatRecipientsForDisplay fallbackMeasurer 72 ["a", "b"] ≠
      (commaJoin ["a", "b"], 0) := by decide

/-- C3 (amended): for a nonnegative measurer, if the container width strictly
exceeds the sum of all identifiers' measured widths (non-last with their `", "`
separator) plus the width of `", ..."` plus the largest badge reservation
`μ ("+k") + 5 + 2 + 2` over `1 ≤ k ≤ N`, then the hidden count is 0 and the display
text is the comma-space-joined full list. -/
theorem c3_amended (μ : String → Int) (w : Int) (rs : List String)
    (hμ : ∀ s, 0 ≤ μ s)
    (hw : sumWidthsFrom μ rs.length 0 rs + μ (", ...") + maxBadgeReserve μ rs.length < w) :
    formatRecipientsForDisplay μ w rs = (commaJoin rs, 0) := by
  unfold formatRecipientsForDisplay
  rw [fitLoop_fullfit μ hμ rs.length (μ (", ...")) (hμ _) rs 0 w ("") hw,
    str_empty_append, joinFrom_eq_commaJoin rs.length rs 0 (Nat.zero_add _)]

theorem c3_witness :
    (∀ s, 0 ≤ fallbackMeasurer s) ∧
    sumWidthsFrom fallbackMeasurer (["a", "b"] : List String).length 0 ["a", "b"] +
        fallbackMeasurer (", ...") +
        maxBadgeReserve fallbackMeasurer (["a", "b"] : List String).length < 178 ∧
    formatRecipientsForDisplay fallbackMeasurer 178 ["a", "b"] =
      (commaJoin ["a", "b"], 0) :=
  ⟨fallback_nonneg, by decide,
    c3_amended fallbackMeasurer 178 ["a", "b"] fallback_nonneg (by decide)⟩

/-- Once past the first item, the hidden count a loop run can produce is at most
`N - index`. -/
theorem fitLoop_hidden_le (μ : String → Int) (N : Nat) (E : Int) :
    ∀ (rest : List String) (index : Nat) (avail : Int) (acc : String), 1 ≤ index →
      (fitLoop μ N E index rest avail acc).2 ≤ N - index := by
  intro rest
  induction rest with
  | nil => intro index avail acc _; exact Nat.zero_le _
  | cons r rest ih =>
    intro index avail acc hidx
    rw [fitLoop_cons]
    by_cases hfit : avail > μ (recipientText N index r) + (if index = N - 1 then 0 else E)
        + badgeReserved μ N index
    · rw [if_pos hfit]
      exact le_trans (ih (index + 1) _ _ (by omega)) (by omega)
    · rw [if_neg hfit]
      show badgeNumberValue N index ≤ N - index
      unfold badgeNumberValue
      rw [if_neg (by omega : ¬ index = 0)]

/-- Shrinking the available width never decreases the hidden count (the
accumulated text plays no role in the count). -/
theorem fitLoop_hidden_antitone (μ : String → Int) (N : Nat) (E : Int) :
    ∀ (rest : List String) (index : Nat) (avail₁ avail₂ : Int) (acc₁ acc₂ : String),
      avail₂ ≤ avail₁ →
      (fitLoop μ N E index rest avail₁ acc₁).2 ≤ (fitLoop μ N E index rest avail₂ acc₂).2 := by
  intro rest
  induction rest with
  | nil => intro index avail₁ avail₂ acc₁ acc₂ _; exact Nat.le_refl 0
  | cons r rest ih =>
    intro index avail₁ avail₂ acc₁ acc₂ hle
    rw [fitLoop_cons, fitLoop_cons]
    by_cases h₂ : avail₂ > μ (recipientText N index r) + (if index = N - 1 then 0 else E)
        + badgeReserved μ N index
    · rw [if_pos h₂, if_pos (lt_of_lt_of_le h₂ hle)]
      exact ih (index + 1) _ _ _ _ (by omega)
    · rw [if_neg h₂]
      by_cases h₁ : avail₁ > μ (recipientText N index r) + (if index = N - 1 then 0 else E)
          + badgeReserved μ N index
      · rw [if_pos h₁]
        refine le_trans (fitLoop_hidden_le μ N E rest (index + 1) _ _ (by omega)) ?_
        show N - (index + 1) ≤ badgeNumberValue N index
        unfold badgeNumberValue
        split_ifs <;> omega
      · rw [if_neg h₁]

/-- C6: for a fixed recipient list and measurer, the hidden count is antitone in the
container width: a strictly smaller width yields a hidden count at least as large. -/
theorem c6_hidden_antitone (μ : String → Int) (rs : List String) (w₁ w₂ : Int)
    (h : w₂ < w₁) :
    (formatRecipientsForDisplay μ w₁ rs).2 ≤ (formatRecipientsForDisplay μ w₂ rs).2 :=
  fitLoop_hidden_antitone μ rs.length (μ (", ...")) rs 0 w₁ w₂ ("") ("") (le_of_lt h)

theorem c6_witness :
    ((50 : Int) < 100) ∧
    (formatRecipientsForDisplay fallbackMeasurer 100 ["a"]).2 ≤
      (formatRecipientsForDisplay fallbackMeasurer 50 ["a"]).2 :=
  ⟨by decide, c6_hidden_antitone fallbackMeasurer ["a"] 100 50 (by decide)⟩

/-- C1: `formatRecipientsForDisplay` does not coincide with the spec's reference
algorithm: with the fallback measurer, ten recipients `"a"` and container width 157,
the code hides the first recipient while the reference algorithm accepts it (the code
measures the badge label from `numberOfHiddenRecipients`, the reference from
`candidateHiddenCount`, and at the first item those differ). -/
theorem c1_counterexample :
    formatRecipientsForDisplay fallbackMeasurer 157 (List.replicate 10 ("a")) ≠
      specFitter fallbackMeasurer 157 (List.replicate 10 ("a")) := by decide

/-- C1 (amended): for every container width, recipient list and measurer,
`formatRecipientsForDisplay` returns exactly the pair computed by the spec's
reference algorithm once the badge label measured at item `i` is taken to be
`"+"` followed by `remainingItems = N - i` (rather than `candidateHiddenCount`);
all other steps of the reference algorithm are as the claim states them. -/
theorem c1_code_matches_amended_reference (μ : String → Int) (w : Int)
    (rs : List String) :
    formatRecipientsForDisplay μ w rs = amendedSpecFitter μ w rs :=
  fitLoop_eq_amendedSpecFitLoop μ rs.length (μ (", ...")) rs 0 w ("")

/-- C2: the badge width reserved in the fit test is not measured from the label
`"+" ++ candidateHiddenCount`: at the first of ten items, with the fallback measurer,
the code reserves the width of `"+10"` (53) while the claimed formula gives the width
of `"+9"` (45). -/
theorem c2_counterexample :
    badgeReserved fallbackMeasurer 10 0 ≠
      (if 0 < badgeNumberValue 10 0 then
        fallbackMeasurer ("+" ++ toString (badgeNumberValue 10 0)) + 5 + 2 + 2
      else 0) := by decide

/-- C2 (amended): the badge width reserved in the fit test for item `index` is
measured from the label `"+" ++ (N - index)` (the count of remaining items including
the current one), plus the fixed paddings 5 + 2 + 2; and for a nonnegative measurer
the reservation is zero exactly when `candidateHiddenCount` (the code's
`badgeNumberValue`, the hidden count failure at this item would produce) is zero. -/
theorem c2_amended (μ : String → Int) (hμ : ∀ s, 0 ≤ μ s) (N index : Nat) :
    badgeReserved μ N index =
      (if 0 < badgeNumberValue N index then
        μ ("+" ++ toString (N - index)) + 5 + 2 + 2
      else 0) ∧
    (badgeReserved μ N index = 0 ↔ badgeNumberValue N index = 0) := by
  refine ⟨rfl, ?_⟩
  unfold badgeReserved widthOfBadge
  split_ifs with h
  · have hb := hμ ("+" ++ toString (N - index))
    omega
  · omega

theorem c2_amended_witness :
    (∀ s, 0 ≤ fallbackMeasurer s) ∧
    (badgeReserved fallbackMeasurer 3 1 =
      (if 0 < badgeNumberValue 3 1 then
        fallbackMeasurer ("+" ++ toString (3 - 1)) + 5 + 2 + 2
      else 0) ∧
    (badgeReserved fallbackMeasurer 3 1 = 0 ↔ badgeNumberValue 3 1 = 0)) :=
  ⟨fallback_nonneg, c2_amended fallbackMeasurer fallback_nonneg 3 1⟩

/-- C8: for the empty recipient list, any container width and any measurer, the
fitter returns the pair `("", 0)`; the function is total, so this is a normal
result, not an error. -/
theorem c8_empty_list (μ : String → Int) (w : Int) :
    formatRecipientsForDisplay μ w [] = (("") , 0) := rfl

/-- C9: a fitting pass is deterministic and side-effect-free: two invocations from
states with the same recipient list and container width (regardless of what the two
output refs held before) produce identical states, the inputs are not modified, and
re-running is idempotent. -/
theorem c9_deterministic_pure (μ : String → Int) (s₁ s₂ : ComponentState)
    (hrec : s₁.recipients = s₂.recipients)
    (hw : s₁.containerWidth = s₂.containerWidth) :
    runFormat μ s₁ = runFormat μ s₂ ∧
    (runFormat μ s₁).recipients = s₁.recipients ∧
    (runFormat μ s₁).containerWidth = s₁.containerWidth ∧
    runFormat μ (runFormat μ s₁) = runFormat μ s₁ := by
  cases s₁
  cases s₂
  simp_all [runFormat]

theorem c9_witness :
    (runFormat fallbackMeasurer ⟨["a"], 100, "xyz", 7⟩ =
      runFormat fallbackMeasurer ⟨["a"], 100, "", 0⟩) ∧
    (runFormat fallbackMeasurer ⟨["a"], 100, "xyz", 7⟩).recipients = ["a"] ∧
    (runFormat fallbackMeasurer ⟨["a"], 100, "xyz", 7⟩).containerWidth = 100 ∧
    runFormat fallbackMeasurer (runFormat fallbackMeasurer ⟨["a"], 100, "xyz", 7⟩) =
      runFormat fallbackMeasurer ⟨["a"], 100, "xyz", 7⟩ :=
  c9_deterministic_pure fallbackMeasurer ⟨["a"], 100, "xyz", 7⟩ ⟨["a"], 100, "", 0⟩ rfl rfl

end RecipientsDisplay
